import Mathlib

/-!
Verification of the `tp` thread-pool library (header `threadpool.hpp`).

The C++ header is shallowly embedded: each queue's contents becomes a Lean
list, each mutating member function becomes a pure function from old state to
new state, `std::optional` becomes `Option`, and fallible paths return
`Except`.  Line numbers in the doc comments refer to `threadpool.hpp`.
-/

namespace tp

/-- `Task` (lines 34-62): a priority-tagged unit of work.  The type-erased
body `func_` is irrelevant to queue-level reasoning, so a task is identified
by a tag `id` plus its integer `priority_` field.  (A dedicated model with
bodies is used for the failure-capture claim further below.) -/
structure Task where
  id : Nat
  priority : Int
deriving DecidableEq

/-- `Task::operator<` (lines 55-57): comparison is reversed
(`priority_ > other.priority_`) so that the `std::priority_queue` max-heap
yields the numerically lowest priority first. -/
def Task.lt (a b : Task) : Bool :=
  decide (a.priority > b.priority)

/-- `TaskQueue` (lines 67-154): the contents of the `std::priority_queue`
member `queue_`, abstracted as a list (a heap is a multiset of entries; which
representative of a priority tie `top()` returns is unspecified). -/
abbrev TaskQueue := List Task

/-- `TaskQueue::push` (lines 78-84): inserts the task; always accepted. -/
def TaskQueue.push (q : TaskQueue) (t : Task) : TaskQueue :=
  t :: q

/-- `TaskQueue::try_pop` (lines 89-97): non-blocking; returns `none` on an
empty queue, otherwise removes and returns `queue_.top()`, i.e. a task that
is maximal for `Task::operator<` — one of numerically minimal priority.
(Among equal priorities the heap's choice is unspecified; this model takes
the earliest such entry in the list.) -/
def TaskQueue.try_pop : TaskQueue → Option (Task × TaskQueue)
  | [] => none
  | t :: ts =>
    match TaskQueue.try_pop ts with
    | none => some (t, [])
    | some (m, rest) =>
      if t.priority ≤ m.priority then some (t, ts) else some (m, t :: rest)

/-- Result of `TaskQueue::wait_pop`: the call can block, return `nullopt`,
or return a task. -/
inductive WaitPopResult
  | blocked
  | nothing
  | got (t : Task) (rest : TaskQueue)
deriving DecidableEq

/-- `TaskQueue::wait_pop` (lines 102-115): waits until the queue is nonempty
or the stop flag is set; then returns `nullopt` if the queue is empty
(possible only with the stop flag set), else pops the top as `try_pop`. -/
def TaskQueue.wait_pop (q : TaskQueue) (stop : Bool) : WaitPopResult :=
  match q.try_pop with
  | some (t, rest) => .got t rest
  | none => if stop then .nothing else .blocked

/-- `TaskQueue::size` (lines 120-123). -/
def TaskQueue.size (q : TaskQueue) : Nat :=
  List.length q

/-- `TaskQueue::empty` (lines 128-131). -/
def TaskQueue.isEmpty (q : TaskQueue) : Bool :=
  decide (q = ([] : List Task))

/-- `TaskQueue::clear` (lines 143-148): pops every entry, executing none. -/
def TaskQueue.clear (_ : TaskQueue) : TaskQueue :=
  []

theorem try_pop_eq_none_iff (q : TaskQueue) : q.try_pop = none ↔ q = [] := by
  constructor
  · intro h
    cases q with
    | nil => rfl
    | cons t ts =>
      unfold TaskQueue.try_pop at h
      cases hts : TaskQueue.try_pop ts with
      | none => simp [hts] at h
      | some p =>
        obtain ⟨m, rest⟩ := p
        rw [hts] at h
        by_cases hle : t.priority ≤ m.priority <;> simp [hle] at h
  · intro h
    subst h
    rfl

theorem try_pop_spec (q : TaskQueue) (t : Task) (rest : TaskQueue)
    (h : q.try_pop = some (t, rest)) :
    t ∈ q ∧ (∀ u ∈ q, t.priority ≤ u.priority) ∧ List.Perm q (t :: rest) := by
  induction q generalizing t rest with
  | nil => exact absurd h (by simp [TaskQueue.try_pop])
  | cons a ts ih =>
    unfold TaskQueue.try_pop at h
    cases hts : TaskQueue.try_pop ts with
    | none =>
      rw [hts] at h
      have hempty : ts = [] := (try_pop_eq_none_iff ts).mp hts
      subst hempty
      simp only [Option.some.injEq, Prod.mk.injEq] at h
      obtain ⟨h1, h2⟩ := h
      subst h1; subst h2
      refine ⟨List.mem_cons_self _ _, ?_, List.Perm.refl _⟩
      intro u hu
      rcases List.mem_singleton.mp hu with h
      subst h; exact le_refl _
    | some p =>
      obtain ⟨m, mrest⟩ := p
      rw [hts] at h
      obtain ⟨hm_mem, hm_min, hm_perm⟩ := ih m mrest hts
      by_cases hle : a.priority ≤ m.priority
      · simp only [hle, if_true, Option.some.injEq, Prod.mk.injEq] at h
        obtain ⟨h1, h2⟩ := h
        subst h1; subst h2
        refine ⟨List.mem_cons_self _ _, ?_, List.Perm.refl _⟩
        intro u hu
        rcases List.mem_cons.mp hu with h | h
        · subst h; exact le_refl _
        · exact le_trans hle (hm_min u h)
      · simp only [hle, if_false, Option.some.injEq, Prod.mk.injEq] at h
        obtain ⟨h1, h2⟩ := h
        subst h1; subst h2
        push_neg at hle
        refine ⟨List.mem_cons_of_mem _ hm_mem, ?_, ?_⟩
        · intro u hu
          rcases List.mem_cons.mp hu with h | h
          · subst h; exact le_of_lt hle
          · exact hm_min u h
        · exact List.Perm.trans (List.Perm.cons a hm_perm) (List.Perm.swap m a mrest)

theorem try_pop_isSome_of_ne_nil (q : TaskQueue) (h : q ≠ []) :
    ∃ t rest, q.try_pop = some (t, rest) := by
  cases hq : q.try_pop with
  | none => exact absurd ((try_pop_eq_none_iff q).mp hq) h
  | some p =>
    obtain ⟨t, rest⟩ := p
    exact ⟨t, rest, rfl⟩

/-- C2: For every non-empty state of the Global Priority Queue, `try_pop`
(and `wait_pop` once unblocked) removes and returns a task whose numeric
priority value is the minimum of all tasks currently queued; `push` always
accepts the task. -/
theorem C2_global_queue_pops_minimum (q : TaskQueue) (v : Task) (h : q ≠ []) :
    (∃ t rest, q.try_pop = some (t, rest)
      ∧ t ∈ q ∧ (∀ u ∈ q, t.priority ≤ u.priority)
      ∧ List.Perm q (t :: rest)
      ∧ ∀ stop, q.wait_pop stop = .got t rest)
    ∧ v ∈ q.push v ∧ (q.push v).size = q.size + 1 := by
  obtain ⟨t, rest, hpop⟩ := try_pop_isSome_of_ne_nil q h
  obtain ⟨hmem, hmin, hperm⟩ := try_pop_spec q t rest hpop
  refine ⟨⟨t, rest, hpop, hmem, hmin, hperm, ?_⟩, ?_, ?_⟩
  · intro stop
    unfold TaskQueue.wait_pop
    rw [hpop]
  · exact List.mem_cons_self _ _
  · rfl

/-- Witness for C2 at the concrete queue `[{id 0, pri 5}, {id 1, pri 2}]`. -/
theorem C2_witness :
    (([⟨0, 5⟩, ⟨1, 2⟩] : TaskQueue) ≠ [])
    ∧ ((∃ t rest, TaskQueue.try_pop ([⟨0, 5⟩, ⟨1, 2⟩] : TaskQueue) = some (t, rest)
        ∧ t ∈ ([⟨0, 5⟩, ⟨1, 2⟩] : TaskQueue)
        ∧ (∀ u ∈ ([⟨0, 5⟩, ⟨1, 2⟩] : TaskQueue), t.priority ≤ u.priority)
        ∧ List.Perm ([⟨0, 5⟩, ⟨1, 2⟩] : TaskQueue) (t :: rest)
        ∧ ∀ stop, TaskQueue.wait_pop ([⟨0, 5⟩, ⟨1, 2⟩] : TaskQueue) stop = .got t rest)
      ∧ (⟨7, 0⟩ : Task) ∈ TaskQueue.push ([⟨0, 5⟩, ⟨1, 2⟩] : TaskQueue) ⟨7, 0⟩
      ∧ (TaskQueue.push ([⟨0, 5⟩, ⟨1, 2⟩] : TaskQueue) ⟨7, 0⟩).size
          = TaskQueue.size ([⟨0, 5⟩, ⟨1, 2⟩] : TaskQueue) + 1) :=
  ⟨by decide, C2_global_queue_pops_minimum ([⟨0, 5⟩, ⟨1, 2⟩] : TaskQueue) ⟨7, 0⟩ (by decide)⟩

/-- `WorkStealingDeque` (lines 159-210): the contents of the `std::deque`
member `deque_`, head of the list = front of the deque. -/
abbrev WorkStealingDeque := List Task

/-- `WorkStealingDeque::push_front` (lines 166-169): owner inserts at the
front. -/
def WorkStealingDeque.push_front (d : WorkStealingDeque) (t : Task) : WorkStealingDeque :=
  t :: d

/-- `WorkStealingDeque::pop_front` (lines 174-182): owner removes from the
front; `none` when empty. -/
def WorkStealingDeque.pop_front : WorkStealingDeque → Option (Task × WorkStealingDeque)
  | [] => none
  | t :: rest => some (t, rest)

/-- `WorkStealingDeque::steal` (lines 187-195): a thief removes from the
back; `none` when empty. -/
def WorkStealingDeque.steal (d : WorkStealingDeque) : Option (Task × WorkStealingDeque) :=
  match List.getLast? d with
  | none => none
  | some t => some (t, List.dropLast d)

theorem steal_eq_none_iff (d : WorkStealingDeque) : d.steal = none ↔ d = [] := by
  unfold WorkStealingDeque.steal
  cases hd : List.getLast? d with
  | none => simpa using (List.getLast?_eq_none_iff).mp hd
  | some t =>
    simp only []
    constructor
    · intro h
      exact absurd h (by simp)
    · intro h
      subst h
      simp at hd

theorem steal_spec (d : WorkStealingDeque) (t : Task) (rest : WorkStealingDeque)
    (h : d.steal = some (t, rest)) : d = rest ++ [t] := by
  unfold WorkStealingDeque.steal at h
  cases hd : List.getLast? d with
  | none => rw [hd] at h; exact absurd h (by simp)
  | some b =>
    rw [hd] at h
    simp only [Option.some.injEq, Prod.mk.injEq] at h
    obtain ⟨h1, h2⟩ := h
    subst h1
    subst h2
    have hne : d ≠ [] := by
      intro hnil
      subst hnil
      simp at hd
    have := List.dropLast_append_getLast hne
    rw [List.getLast?_eq_getLast d hne, Option.some.injEq] at hd
    rw [hd] at this
    exact this.symm

/-- One operation of the sequential history of a single
`WorkStealingDeque`: the owner's `push_front` / `pop_front` or a thief's
`steal`. -/
inductive DequeOp
  | push_front_op (t : Task)
  | pop_front_op
  | steal_op
deriving DecidableEq

/-- A deque together with the tasks delivered so far (returned by
`pop_front` or `steal`) over a history of operations. -/
structure DequeTrace where
  deque : WorkStealingDeque
  delivered : List Task
deriving DecidableEq

/-- Effect of one operation on the deque, recording delivered tasks
(operations on an empty deque return `none` and deliver nothing). -/
def dequeApply (s : DequeTrace) : DequeOp → DequeTrace
  | .push_front_op t => { s with deque := s.deque.push_front t }
  | .pop_front_op =>
    match s.deque.pop_front with
    | none => s
    | some (t, rest) => { deque := rest, delivered := s.delivered ++ [t] }
  | .steal_op =>
    match s.deque.steal with
    | none => s
    | some (t, rest) => { deque := rest, delivered := s.delivered ++ [t] }

/-- Run a history of operations starting from an empty deque. -/
def dequeRun (ops : List DequeOp) : DequeTrace :=
  ops.foldl dequeApply ⟨[], []⟩

/-- The tasks pushed by a history, in order. -/
def pushedTasks (ops : List DequeOp) : List Task :=
  ops.filterMap fun o =>
    match o with
    | .push_front_op t => some t
    | _ => none

theorem dequeApply_perm (s : DequeTrace) (op : DequeOp) :
    List.Perm ((dequeApply s op).delivered ++ (dequeApply s op).deque)
      (s.delivered ++ s.deque ++ pushedTasks [op]) := by
  cases op with
  | push_front_op t =>
    simp only [dequeApply, pushedTasks, WorkStealingDeque.push_front,
      List.filterMap, List.append_assoc]
    exact List.Perm.append_left s.delivered
      (List.Perm.trans (List.Perm.refl _) (@List.perm_append_comm _ [t] _))
  | pop_front_op =>
    cases hd : s.deque.pop_front with
    | none =>
      simp only [dequeApply, hd]
      simp [pushedTasks]
    | some p =>
      obtain ⟨t, rest⟩ := p
      have hdq : s.deque = t :: rest := by
        cases hq : s.deque with
        | nil => rw [hq] at hd; exact absurd hd (by simp [WorkStealingDeque.pop_front])
        | cons a l =>
          rw [hq] at hd
          simp only [WorkStealingDeque.pop_front, Option.some.injEq, Prod.mk.injEq] at hd
          rw [hd.1, hd.2]
      simp only [dequeApply, hd]
      rw [hdq]
      simp only [pushedTasks, List.filterMap, List.append_nil, List.append_assoc]
      exact List.Perm.refl _
  | steal_op =>
    cases hd : s.deque.steal with
    | none =>
      simp only [dequeApply, hd]
      simp [pushedTasks]
    | some p =>
      obtain ⟨t, rest⟩ := p
      have hdq : s.deque = rest ++ [t] := steal_spec s.deque t rest hd
      simp only [dequeApply, hd]
      rw [hdq]
      simp only [pushedTasks, List.filterMap, List.append_nil, List.append_assoc]
      exact List.Perm.append_left s.delivered (@List.perm_append_comm _ [t] _)

theorem pushedTasks_cons (op : DequeOp) (ops : List DequeOp) :
    pushedTasks (op :: ops) = pushedTasks [op] ++ pushedTasks ops := by
  cases op <;> simp [pushedTasks]

theorem dequeRunFrom_perm (ops : List DequeOp) (s : DequeTrace) :
    List.Perm ((ops.foldl dequeApply s).delivered ++ (ops.foldl dequeApply s).deque)
      (s.delivered ++ s.deque ++ pushedTasks ops) := by
  induction ops generalizing s with
  | nil => simp [pushedTasks]
  | cons op ops ih =>
    rw [List.foldl_cons]
    have step := List.Perm.append_right (pushedTasks ops) (dequeApply_perm s op)
    have := List.Perm.trans (ih (dequeApply s op)) step
    rw [pushedTasks_cons op ops, ← List.append_assoc]
    exact this

/-- C3: over any sequence of `push_front` / `pop_front` / `steal`
operations on one stealing deque (started empty), the delivered tasks plus
the tasks still queued are exactly the pushed tasks (no task lost); if the
pushed tasks are pairwise distinct then no task is delivered twice;
`pop_front` removes from the front (the most recently pushed end) and
`steal` removes from the opposite back end. -/
theorem C3_deque_no_loss_no_dup (ops : List DequeOp) (hnd : (pushedTasks ops).Nodup) :
    ((↑(dequeRun ops).delivered + ↑(dequeRun ops).deque : Multiset Task) = ↑(pushedTasks ops))
    ∧ (dequeRun ops).delivered.Nodup
    ∧ (∀ t d, WorkStealingDeque.pop_front (WorkStealingDeque.push_front d t) = some (t, d))
    ∧ (∀ t front, WorkStealingDeque.steal (front ++ [t]) = some (t, front)) := by
  have hperm : List.Perm ((dequeRun ops).delivered ++ (dequeRun ops).deque)
      (pushedTasks ops) := by
    have := dequeRunFrom_perm ops ⟨[], []⟩
    simpa [dequeRun] using this
  have hmain : (↑(dequeRun ops).delivered + ↑(dequeRun ops).deque : Multiset Task)
      = ↑(pushedTasks ops) := by
    rw [Multiset.coe_add]
    exact Multiset.coe_eq_coe.mpr hperm
  refine ⟨hmain, ?_, ?_, ?_⟩
  · have happ : ((dequeRun ops).delivered ++ (dequeRun ops).deque).Nodup :=
      (List.Perm.nodup_iff hperm).mpr hnd
    exact List.Nodup.sublist (List.sublist_append_left _ _) happ
  · intro t d
    rfl
  · intro t front
    unfold WorkStealingDeque.steal
    rw [List.getLast?_concat, List.dropLast_concat]

/-- Witness for C3 on the concrete history
push a, push b, steal, push c, pop, pop. -/
theorem C3_witness :
    (pushedTasks [.push_front_op ⟨0, 0⟩, .push_front_op ⟨1, 0⟩, .steal_op,
        .push_front_op ⟨2, 0⟩, .pop_front_op, .pop_front_op]).Nodup
    ∧ (((↑(dequeRun [.push_front_op ⟨0, 0⟩, .push_front_op ⟨1, 0⟩, .steal_op,
          .push_front_op ⟨2, 0⟩, .pop_front_op, .pop_front_op]).delivered
        + ↑(dequeRun [.push_front_op ⟨0, 0⟩, .push_front_op ⟨1, 0⟩, .steal_op,
          .push_front_op ⟨2, 0⟩, .pop_front_op, .pop_front_op]).deque : Multiset Task)
        = ↑(pushedTasks [.push_front_op ⟨0, 0⟩, .push_front_op ⟨1, 0⟩, .steal_op,
          .push_front_op ⟨2, 0⟩, .pop_front_op, .pop_front_op]))
      ∧ (dequeRun [.push_front_op ⟨0, 0⟩, .push_front_op ⟨1, 0⟩, .steal_op,
          .push_front_op ⟨2, 0⟩, .pop_front_op, .pop_front_op]).delivered.Nodup
      ∧ (∀ t d, WorkStealingDeque.pop_front (WorkStealingDeque.push_front d t) = some (t, d))
      ∧ (∀ t front, WorkStealingDeque.steal (front ++ [t]) = some (t, front))) :=
  ⟨by decide, C3_deque_no_loss_no_dup _ (by decide)⟩

/-- State of a `ThreadPool` (lines 232-451), as observable through its
queues, flags and counters.  `channels` records the ids of tasks for which a
result channel (`std::packaged_task` shared state / future) has been
allocated; `resolved` the ids whose channel has been resolved; `executed`
the ids whose body has run.  The four `stats_` counters (lines 215-220) are
`submitted`, `completed`, `stolen` and `exec_time`. -/
structure PoolState where
  num_threads : Nat
  stop : Bool
  active_tasks : Nat
  global_queue : TaskQueue
  local_queues : List WorkStealingDeque
  submitted : Nat
  completed : Nat
  stolen : Nat
  exec_time : Nat
  channels : List Nat
  resolved : List Nat
  executed : List Nat
deriving DecidableEq

/-- `ThreadPool::ThreadPool` (lines 238-253): clamps the thread count to at
least 1, creates that many empty local deques, and starts with the stop flag
clear and all counters zero. -/
def mkThreadPool (n : Nat) : PoolState :=
  { num_threads := if n > 0 then n else 1
    stop := false
    active_tasks := 0
    global_queue := []
    local_queues := List.replicate (if n > 0 then n else 1) []
    submitted := 0
    completed := 0
    stolen := 0
    exec_time := 0
    channels := []
    resolved := []
    executed := [] }

/-- The rejection error thrown by `submit_priority` (line 300). -/
inductive SubmitError
  | rejected
deriving DecidableEq

/-- `ThreadPool::submit_priority` (lines 293-315): if the stop flag is set,
throws (`error`, state unchanged — the check precedes every side effect);
otherwise allocates the result channel, wraps the packaged task in a `Task`
with the given priority, pushes it onto the global queue, and increments the
submitted counter.  `tid` tags the task/channel created by this call.
`ThreadPool::submit` (lines 279-284) is the special case `priority = 0`. -/
def submit_priority (s : PoolState) (priority : Int) (tid : Nat) :
    PoolState × Except SubmitError Nat :=
  if s.stop then
    (s, .error .rejected)
  else
    ({ s with
        channels := tid :: s.channels
        global_queue := s.global_queue.push ⟨tid, priority⟩
        submitted := s.submitted + 1 },
      .ok tid)

/-- `ThreadPool::submit` (lines 279-284): delegates to `submit_priority 0`. -/
def submit (s : PoolState) (tid : Nat) : PoolState × Except SubmitError Nat :=
  submit_priority s 0 tid

/-- `ThreadPool::shutdown` (lines 354-357): stores `true` into the stop flag
and wakes all waiters (the wake-up has no effect on the abstract state). -/
def shutdown (s : PoolState) : PoolState :=
  { s with stop := true }

/-- `ThreadPool::shutdown_now` (lines 362-369): stores `true` into the stop
flag, clears the global queue, pops every local deque empty (discarding, not
running, the tasks), and wakes all waiters. -/
def shutdown_now (s : PoolState) : PoolState :=
  { s with
      stop := true
      global_queue := TaskQueue.clear s.global_queue
      local_queues := s.local_queues.map fun _ => [] }

/-- C4: a `submit`/`submit_priority` call made after shutdown has begun
fails with the rejection error and changes nothing — no channel allocated,
nothing pushed, submitted counter untouched; a call made while running is
never rejected. -/
theorem C4_submit_after_stop_rejected (s : PoolState) (priority : Int) (tid : Nat) :
    (s.stop = true →
      submit_priority s priority tid = (s, .error .rejected)
      ∧ submit s tid = (s, .error .rejected))
    ∧ (s.stop = false →
      (submit_priority s priority tid).2 ≠ .error .rejected
      ∧ (submit s tid).2 ≠ .error .rejected) := by
  constructor
  · intro h
    constructor
    · simp [submit_priority, h]
    · simp [submit, submit_priority, h]
  · intro h
    constructor
    · simp [submit_priority, h]
    · simp [submit, submit_priority, h]

/-- Witness for C4: a one-thread pool rejects after `shutdown` and accepts
while running. -/
theorem C4_witness :
    ((shutdown (mkThreadPool 1)).stop = true →
      submit_priority (shutdown (mkThreadPool 1)) 3 0
          = (shutdown (mkThreadPool 1), .error .rejected)
      ∧ submit (shutdown (mkThreadPool 1)) 0 = (shutdown (mkThreadPool 1), .error .rejected))
    ∧ ((shutdown (mkThreadPool 1)).stop = false →
      (submit_priority (shutdown (mkThreadPool 1)) 3 0).2 ≠ .error .rejected
      ∧ (submit (shutdown (mkThreadPool 1)) 0).2 ≠ .error .rejected) :=
  C4_submit_after_stop_rejected (shutdown (mkThreadPool 1)) 3 0

/-- C5: `shutdown_now` sets the stop flag and empties the global queue and
every local deque; it executes no discarded body, resolves no result
channel, and leaves the active (in-flight) task count untouched. -/
theorem C5_shutdown_now_discards (s : PoolState) :
    (shutdown_now s).stop = true
    ∧ (shutdown_now s).global_queue = []
    ∧ (∀ d ∈ (shutdown_now s).local_queues, d = [])
    ∧ (shutdown_now s).executed = s.executed
    ∧ (shutdown_now s).resolved = s.resolved
    ∧ (shutdown_now s).completed = s.completed
    ∧ (shutdown_now s).active_tasks = s.active_tasks := by
  refine ⟨rfl, rfl, ?_, rfl, rfl, rfl, rfl⟩
  intro d hd
  simp only [shutdown_now, List.mem_map] at hd
  obtain ⟨_, _, h⟩ := hd
  exact h.symm

/-- Witness for C5 on a two-thread pool holding one submitted task: after
`shutdown_now` the stop flag is set and the deque at index 0 (a member of
the local-queue vector) is empty. -/
theorem C5_witness :
    (shutdown_now (submit_priority (mkThreadPool 2) 5 0).1).stop = true
    ∧ ([] : WorkStealingDeque)
        ∈ (shutdown_now (submit_priority (mkThreadPool 2) 5 0).1).local_queues
    ∧ ([] : WorkStealingDeque) = [] :=
  ⟨(C5_shutdown_now_discards (submit_priority (mkThreadPool 2) 5 0).1).1,
    by decide,
    (C5_shutdown_now_discards (submit_priority (mkThreadPool 2) 5 0).1).2.2.1 []
      (by decide)⟩

/-- C10: `shutdown` is idempotent — after a previous `shutdown` or
`shutdown_now` it leaves the state unchanged (the stop flag is merely stored
as set again), so the destructor's unconditional `shutdown()` (line 259) is
safe on every path; after either path the stop flag is set. -/
theorem C10_shutdown_idempotent (s : PoolState) :
    shutdown (shutdown s) = shutdown s
    ∧ shutdown (shutdown_now s) = shutdown_now s
    ∧ (shutdown s).stop = true
    ∧ (shutdown_now s).stop = true :=
  ⟨rfl, rfl, rfl, rfl⟩

/-- The victim order of `ThreadPool::try_steal` (lines 428-429): for
`i = 0, …, num_threads-1` the victim index is
`(worker_id + i + 1) % num_threads` — round-robin starting just after the
worker's own index. -/
def steal_order (worker_id n : Nat) : List Nat :=
  (List.range n).map fun i => (worker_id + i + 1) % n

/-- Loop body of `ThreadPool::try_steal` (lines 427-439) over the remaining
victim indices: skip the worker itself (line 430), otherwise steal from the
victim's deque and stop at the first success.  Returns the victim index, the
stolen task, and the updated vector of local deques. -/
def try_steal_go (locals : List WorkStealingDeque) (worker_id : Nat) :
    List Nat → Option (Nat × Task × List WorkStealingDeque)
  | [] => none
  | v :: vs =>
    if v = worker_id then try_steal_go locals worker_id vs
    else
      match (locals.getD v []).steal with
      | none => try_steal_go locals worker_id vs
      | some (t, rest) => some (v, t, locals.set v rest)

/-- `ThreadPool::try_steal` (lines 427-439). -/
def try_steal (s : PoolState) (worker_id : Nat) :
    Option (Nat × Task × List WorkStealingDeque) :=
  try_steal_go s.local_queues worker_id (steal_order worker_id s.num_threads)

/-- Where `worker_loop` obtained the task of an iteration: steps 1-4 of the
scheduling cascade (lines 386-402). -/
inductive TaskSource
  | local_front
  | global_try
  | stolen (victim : Nat)
  | global_wait
deriving DecidableEq

/-- Outcome of one `worker_loop` iteration: run a task, leave the loop
(`break`, line 406), block inside `wait_pop`, or take the `continue` branch
(line 408). -/
inductive IterResult
  | run (src : TaskSource) (t : Task) (s2 : PoolState)
  | finished
  | blocked
  | looped
deriving DecidableEq

/-- One iteration of `ThreadPool::worker_loop` (lines 382-409), up to the
point where a task is about to be executed: (1) pop the worker's own deque
front, (2) else `try_pop` the global queue, (3) else `try_steal` (counting a
success in the stolen-tasks counter, line 434), (4) else `wait_pop` on the
global queue; with no task, the loop breaks when the stop flag is set and
continues otherwise. -/
def worker_iter (s : PoolState) (worker_id : Nat) : IterResult :=
  match (s.local_queues.getD worker_id []).pop_front with
  | some (t, rest) =>
    .run .local_front t { s with local_queues := s.local_queues.set worker_id rest }
  | none =>
    match s.global_queue.try_pop with
    | some (t, rest) => .run .global_try t { s with global_queue := rest }
    | none =>
      match try_steal s worker_id with
      | some (v, t, ls) =>
        .run (.stolen v) t { s with local_queues := ls, stolen := s.stolen + 1 }
      | none =>
        match s.global_queue.wait_pop s.stop with
        | .got t rest => .run .global_wait t { s with global_queue := rest }
        | .nothing => if s.stop then .finished else .looped
        | .blocked => .blocked

/-- Task execution inside `worker_loop` (lines 411-421): runs the body
(resolving its result channel through the packaged task), adds the elapsed
time to the execution-time counter, and increments the completed counter.
`active_tasks_` is incremented before and decremented after (lines 412 and
420), a net zero across the whole execution; the transient window is
modelled separately below for the quiescence claim. -/
def exec_task (s : PoolState) (t : Task) (dur : Nat) : PoolState :=
  { s with
      executed := t.id :: s.executed
      resolved := t.id :: s.resolved
      exec_time := s.exec_time + dur
      completed := s.completed + 1 }

theorem try_steal_go_eq_none_iff (locals : List WorkStealingDeque) (wid : Nat)
    (vs : List Nat) :
    try_steal_go locals wid vs = none
      ↔ ∀ v ∈ vs, v = wid ∨ (locals.getD v []).steal = none := by
  induction vs with
  | nil => simp [try_steal_go]
  | cons v vs ih =>
    by_cases hv : v = wid
    · simp only [try_steal_go, hv, if_true]
      constructor
      · intro h u hu
        rcases List.mem_cons.mp hu with h1 | h1
        · subst h1; exact Or.inl rfl
        · exact (ih.mp h) u h1
      · intro h
        exact ih.mpr fun u hu => h u (List.mem_cons_of_mem _ hu)
    · simp only [try_steal_go, hv, if_false]
      cases hs : (locals.getD v []).steal with
      | none =>
        constructor
        · intro h u hu
          rcases List.mem_cons.mp hu with h1 | h1
          · subst h1; exact Or.inr hs
          · exact (ih.mp h) u h1
        · intro h
          exact ih.mpr fun u hu => h u (List.mem_cons_of_mem _ hu)
      | some p =>
        constructor
        · intro h; exact absurd h (by simp)
        · intro h
          rcases h v (List.mem_cons_self _ _) with h1 | h1
          · exact absurd h1 hv
          · rw [h1] at hs; exact absurd hs (by simp)

theorem try_steal_go_spec (locals : List WorkStealingDeque) (wid : Nat)
    (vs : List Nat) (v : Nat) (t : Task) (ls : List WorkStealingDeque)
    (h : try_steal_go locals wid vs = some (v, t, ls)) :
    ∃ pre post rest, vs = pre ++ v :: post
      ∧ (∀ u ∈ pre, u = wid ∨ (locals.getD u []).steal = none)
      ∧ v ≠ wid
      ∧ (locals.getD v []).steal = some (t, rest)
      ∧ ls = locals.set v rest := by
  induction vs with
  | nil => exact absurd h (by simp [try_steal_go])
  | cons u vs ih =>
    by_cases hu : u = wid
    · rw [try_steal_go, if_pos hu] at h
      obtain ⟨pre, post, rest, h1, h2, h3, h4, h5⟩ := ih h
      refine ⟨u :: pre, post, rest, by rw [h1]; rfl, ?_, h3, h4, h5⟩
      intro w hw
      rcases List.mem_cons.mp hw with hw1 | hw1
      · subst hw1; exact Or.inl hu
      · exact h2 w hw1
    · rw [try_steal_go, if_neg hu] at h
      cases hs : (locals.getD u []).steal with
      | none =>
        rw [hs] at h
        obtain ⟨pre, post, rest, h1, h2, h3, h4, h5⟩ := ih h
        refine ⟨u :: pre, post, rest, by rw [h1]; rfl, ?_, h3, h4, h5⟩
        intro w hw
        rcases List.mem_cons.mp hw with hw1 | hw1
        · subst hw1; exact Or.inr hs
        · exact h2 w hw1
      | some p =>
        obtain ⟨t0, rest0⟩ := p
        rw [hs] at h
        simp only [Option.some.injEq, Prod.mk.injEq] at h
        obtain ⟨h1, h2, h3⟩ := h
        subst h1; subst h2; subst h3
        exact ⟨[], vs, rest0, rfl, by simp, hu, hs, rfl⟩

theorem steal_order_getD (wid n i : Nat) (h : i < n) :
    (steal_order wid n).getD i 0 = (wid + i + 1) % n := by
  unfold steal_order
  rw [List.getD_eq_getElem?_getD, List.getElem?_map, List.getElem?_range h]
  rfl

theorem steal_order_length (wid n : Nat) : (steal_order wid n).length = n := by
  simp [steal_order]

theorem pop_front_eq_none_iff (d : WorkStealingDeque) : d.pop_front = none ↔ d = [] := by
  cases d <;> simp [WorkStealingDeque.pop_front]

/-- C1: each `worker_loop` iteration tries its sources in exactly the order
(1) own deque front, (2) non-blocking global pop (which yields a
minimum-priority task), (3) steal, visiting the other workers in round-robin
order starting just after the worker's own index and taking the first
successful steal, never from itself, (4) blocking wait on the global queue;
and the worker leaves its loop exactly when all four steps yield nothing
and the stop flag is set (blocking, not terminating, when the stop flag is
clear; the `continue` branch of line 408 is never the outcome). -/
theorem C1_worker_scheduling_order (s : PoolState) (wid : Nat) :
    (∀ t rest, s.local_queues.getD wid [] = t :: rest →
      worker_iter s wid
        = .run .local_front t { s with local_queues := s.local_queues.set wid rest })
    ∧ (s.local_queues.getD wid [] = [] → s.global_queue ≠ [] →
      ∃ t rest, s.global_queue.try_pop = some (t, rest)
        ∧ (∀ u ∈ s.global_queue, t.priority ≤ u.priority)
        ∧ worker_iter s wid = .run .global_try t { s with global_queue := rest })
    ∧ (∀ v t ls, s.local_queues.getD wid [] = [] → s.global_queue = [] →
        try_steal s wid = some (v, t, ls) →
      worker_iter s wid
          = .run (.stolen v) t { s with local_queues := ls, stolen := s.stolen + 1 }
        ∧ v ≠ wid
        ∧ (∃ pre post front, steal_order wid s.num_threads = pre ++ v :: post
            ∧ (∀ u ∈ pre, u = wid ∨ (s.local_queues.getD u []).steal = none)
            ∧ s.local_queues.getD v [] = front ++ [t]
            ∧ ls = s.local_queues.set v front))
    ∧ (∀ i, i < s.num_threads →
        (steal_order wid s.num_threads).getD i 0 = (wid + i + 1) % s.num_threads)
    ∧ (worker_iter s wid = .finished
        ↔ s.local_queues.getD wid [] = [] ∧ s.global_queue = []
          ∧ try_steal s wid = none ∧ s.stop = true)
    ∧ (worker_iter s wid = .blocked
        ↔ s.local_queues.getD wid [] = [] ∧ s.global_queue = []
          ∧ try_steal s wid = none ∧ s.stop = false)
    ∧ worker_iter s wid ≠ .looped := by
  refine ⟨?_, ?_, ?_, ?_, ?_, ?_, ?_⟩
  · intro t rest h
    have hl : (s.local_queues.getD wid []).pop_front = some (t, rest) := by
      rw [h]
      rfl
    unfold worker_iter
    rw [hl]
  · intro h1 h2
    obtain ⟨t, rest, hpop⟩ := try_pop_isSome_of_ne_nil _ h2
    obtain ⟨_, hmin, _⟩ := try_pop_spec _ _ _ hpop
    refine ⟨t, rest, hpop, hmin, ?_⟩
    have hl : (s.local_queues.getD wid []).pop_front = none := by
      rw [h1]
      rfl
    unfold worker_iter
    rw [hl, hpop]
  · intro v t ls h1 h2 hsteal
    have hg : s.global_queue.try_pop = none := (try_pop_eq_none_iff _).mpr h2
    have hl : (s.local_queues.getD wid []).pop_front = none := by
      rw [h1]
      rfl
    refine ⟨?_, ?_, ?_⟩
    · unfold worker_iter
      rw [hl, hg, hsteal]
    · obtain ⟨_, _, _, _, _, hv, _, _⟩ := try_steal_go_spec _ _ _ _ _ _ hsteal
      exact hv
    · obtain ⟨pre, post, rest, hsplit, hpre, hv, hs, hls⟩ :=
        try_steal_go_spec _ _ _ _ _ _ hsteal
      exact ⟨pre, post, rest, hsplit, hpre, steal_spec _ _ _ hs, hls⟩
  · intro i hi
    exact steal_order_getD wid s.num_threads i hi
  · constructor
    · intro hfin
      unfold worker_iter at hfin
      cases hl : (s.local_queues.getD wid []).pop_front with
      | some p => rw [hl] at hfin; exact absurd hfin (by simp)
      | none =>
        rw [hl] at hfin
        cases hg : s.global_queue.try_pop with
        | some p => rw [hg] at hfin; obtain ⟨t, rest⟩ := p; exact absurd hfin (by simp)
        | none =>
          rw [hg] at hfin
          cases hs : try_steal s wid with
          | some p =>
            rw [hs] at hfin
            obtain ⟨v, t, ls⟩ := p
            exact absurd hfin (by simp)
          | none =>
            rw [hs] at hfin
            have hq : s.global_queue = [] := (try_pop_eq_none_iff _).mp hg
            have hwp : s.global_queue.wait_pop s.stop
                = if s.stop then .nothing else .blocked := by
              unfold TaskQueue.wait_pop
              rw [hg]
            rw [hwp] at hfin
            cases hstop : s.stop with
            | false => rw [hstop] at hfin; exact absurd hfin (by simp)
            | true =>
              exact ⟨(pop_front_eq_none_iff _).mp hl, hq, rfl, rfl⟩
    · rintro ⟨h1, h2, h3, h4⟩
      have hg : s.global_queue.try_pop = none := (try_pop_eq_none_iff _).mpr h2
      have hl : (s.local_queues.getD wid []).pop_front = none := by
        rw [h1]
        rfl
      have hwp : s.global_queue.wait_pop s.stop = .nothing := by
        unfold TaskQueue.wait_pop
        rw [hg, h4]
        rfl
      unfold worker_iter
      rw [hl, hg, h3, hwp, h4]
      rfl
  · constructor
    · intro hblk
      unfold worker_iter at hblk
      cases hl : (s.local_queues.getD wid []).pop_front with
      | some p => rw [hl] at hblk; exact absurd hblk (by simp)
      | none =>
        rw [hl] at hblk
        cases hg : s.global_queue.try_pop with
        | some p => rw [hg] at hblk; obtain ⟨t, rest⟩ := p; exact absurd hblk (by simp)
        | none =>
          rw [hg] at hblk
          cases hs : try_steal s wid with
          | some p =>
            rw [hs] at hblk
            obtain ⟨v, t, ls⟩ := p
            exact absurd hblk (by simp)
          | none =>
            rw [hs] at hblk
            have hq : s.global_queue = [] := (try_pop_eq_none_iff _).mp hg
            have hwp : s.global_queue.wait_pop s.stop
                = if s.stop then .nothing else .blocked := by
              unfold TaskQueue.wait_pop
              rw [hg]
            rw [hwp] at hblk
            cases hstop : s.stop with
            | true => rw [hstop] at hblk; exact absurd hblk (by simp)
            | false =>
              exact ⟨(pop_front_eq_none_iff _).mp hl, hq, rfl, rfl⟩
    · rintro ⟨h1, h2, h3, h4⟩
      have hg : s.global_queue.try_pop = none := (try_pop_eq_none_iff _).mpr h2
      have hl : (s.local_queues.getD wid []).pop_front = none := by
        rw [h1]
        rfl
      have hwp : s.global_queue.wait_pop s.stop = .blocked := by
        unfold TaskQueue.wait_pop
        rw [hg, h4]
        rfl
      unfold worker_iter
      rw [hl, hg, h3, hwp]
  · intro hloop
    unfold worker_iter at hloop
    cases hl : (s.local_queues.getD wid []).pop_front with
    | some p => rw [hl] at hloop; exact absurd hloop (by simp)
    | none =>
      rw [hl] at hloop
      cases hg : s.global_queue.try_pop with
      | some p => rw [hg] at hloop; obtain ⟨t, rest⟩ := p; exact absurd hloop (by simp)
      | none =>
        rw [hg] at hloop
        cases hs : try_steal s wid with
        | some p =>
          rw [hs] at hloop
          obtain ⟨v, t, ls⟩ := p
          exact absurd hloop (by simp)
        | none =>
          rw [hs] at hloop
          have hwp : s.global_queue.wait_pop s.stop
              = if s.stop then .nothing else .blocked := by
            unfold TaskQueue.wait_pop
            rw [hg]
          rw [hwp] at hloop
          cases hstop : s.stop with
          | true => rw [hstop] at hloop; exact absurd hloop (by simp)
          | false => rw [hstop] at hloop; exact absurd hloop (by simp)

/-- Witness for C1: on a fresh two-thread pool (everything empty, stop flag
clear) the iteration blocks in step 4; after `shutdown` it terminates. -/
theorem C1_witness :
    worker_iter (mkThreadPool 2) 0 = .blocked
    ∧ worker_iter (shutdown (mkThreadPool 2)) 1 = .finished :=
  ⟨((C1_worker_scheduling_order (mkThreadPool 2) 0).2.2.2.2.2.1).mpr
      ⟨by decide, rfl, by decide, rfl⟩,
    ((C1_worker_scheduling_order (shutdown (mkThreadPool 2)) 1).2.2.2.2.1).mpr
      ⟨by decide, rfl, by decide, rfl⟩⟩

/-- A transition of the pool as a whole: a (possibly rejected) submission
(lines 293-315), one worker iteration that obtained a task and executed it
(lines 382-421, with `dur` the measured duration of the body), `shutdown`
(lines 354-357), or `shutdown_now` (lines 362-369). -/
inductive PoolStep : PoolState → PoolState → Prop
  | submit_step (s : PoolState) (priority : Int) (tid : Nat) :
      PoolStep s (submit_priority s priority tid).1
  | worker_step (s : PoolState) (wid : Nat) (src : TaskSource) (t : Task)
      (s2 : PoolState) (dur : Nat) (h : worker_iter s wid = .run src t s2) :
      PoolStep s (exec_task s2 t dur)
  | shutdown_step (s : PoolState) : PoolStep s (shutdown s)
  | shutdown_now_step (s : PoolState) : PoolStep s (shutdown_now s)

/-- All per-worker stealing deques of the pool are empty. -/
def locals_empty (s : PoolState) : Prop :=
  ∀ d ∈ s.local_queues, d = []

theorem getD_nil_of_locals_empty (l : List WorkStealingDeque)
    (h : ∀ d ∈ l, d = []) (i : Nat) : l.getD i [] = [] := by
  induction l generalizing i with
  | nil => rfl
  | cons a l ih =>
    cases i with
    | zero => exact h a (List.mem_cons_self _ _)
    | succ j => exact ih (fun d hd => h d (List.mem_cons_of_mem _ hd)) j

theorem try_steal_none_of_locals_empty (s : PoolState) (h : locals_empty s)
    (wid : Nat) : try_steal s wid = none := by
  unfold try_steal
  rw [try_steal_go_eq_none_iff]
  intro v hv
  right
  rw [getD_nil_of_locals_empty s.local_queues h v]
  rfl

theorem worker_run_of_locals_empty (s : PoolState) (wid : Nat) (src : TaskSource)
    (t : Task) (s2 : PoolState) (hle : locals_empty s)
    (h : worker_iter s wid = .run src t s2) :
    s2.local_queues = s.local_queues ∧ s2.stolen = s.stolen := by
  have hl : (s.local_queues.getD wid []).pop_front = none := by
    rw [getD_nil_of_locals_empty s.local_queues hle wid]
    rfl
  have hs : try_steal s wid = none := try_steal_none_of_locals_empty s hle wid
  unfold worker_iter at h
  rw [hl] at h
  cases hg : s.global_queue.try_pop with
  | some p =>
    obtain ⟨t0, rest0⟩ := p
    rw [hg] at h
    simp only [IterResult.run.injEq] at h
    obtain ⟨_, _, h3⟩ := h
    rw [← h3]
    exact ⟨rfl, rfl⟩
  | none =>
    rw [hg, hs] at h
    have hwp : s.global_queue.wait_pop s.stop
        = if s.stop then .nothing else .blocked := by
      unfold TaskQueue.wait_pop
      rw [hg]
    rw [hwp] at h
    cases hstop : s.stop with
    | true => rw [hstop] at h; exact absurd h (by simp)
    | false => rw [hstop] at h; exact absurd h (by simp)

theorem poolStep_preserves_locals_empty (a b : PoolState) (hstep : PoolStep a b)
    (ha : locals_empty a ∧ a.stolen = 0) : locals_empty b ∧ b.stolen = 0 := by
  obtain ⟨hle, hst⟩ := ha
  cases hstep with
  | submit_step priority tid =>
    unfold submit_priority
    by_cases h : a.stop
    · simp only [h, if_true]
      exact ⟨hle, hst⟩
    · simp only [h, if_false]
      exact ⟨hle, hst⟩
  | worker_step wid src t s2 dur h =>
    obtain ⟨h1, h2⟩ := worker_run_of_locals_empty a wid src t s2 hle h
    constructor
    · intro d hd
      rw [exec_task] at hd
      simp only [] at hd
      rw [h1] at hd
      exact hle d hd
    · rw [exec_task]
      simp only []
      rw [h2]
      exact hst
  | shutdown_step => exact ⟨hle, hst⟩
  | shutdown_now_step =>
    constructor
    · intro d hd
      rw [shutdown_now] at hd
      simp only [List.mem_map] at hd
      obtain ⟨_, _, h⟩ := hd
      exact h.symm
    · exact hst

/-- C8: in every execution of the pool no task is ever placed on a
per-worker stealing deque — `submit`/`submit_priority` push only to the
global queue and nothing calls `push_front` — so in every reachable state
every local deque is empty, `try_steal` returns nothing for every worker,
and the stolen-tasks counter is 0. -/
theorem C8_local_deques_always_empty (n : Nat) (s : PoolState)
    (h : Relation.ReflTransGen PoolStep (mkThreadPool n) s) :
    locals_empty s ∧ s.stolen = 0 ∧ ∀ wid, try_steal s wid = none := by
  have hinv : locals_empty s ∧ s.stolen = 0 := by
    induction h with
    | refl =>
      constructor
      · intro d hd
        exact List.eq_of_mem_replicate hd
      · rfl
    | tail hab hbc ih =>
      exact poolStep_preserves_locals_empty _ _ hbc ih
  exact ⟨hinv.1, hinv.2, fun wid => try_steal_none_of_locals_empty s hinv.1 wid⟩

/-- Witness for C8 at the initial state of a two-thread pool. -/
theorem C8_witness :
    locals_empty (mkThreadPool 2) ∧ (mkThreadPool 2).stolen = 0
      ∧ ∀ wid, try_steal (mkThreadPool 2) wid = none :=
  C8_local_deques_always_empty 2 (mkThreadPool 2) Relation.ReflTransGen.refl

/-- Outcome stored in a task's result channel (the shared state of the
`std::packaged_task` / `std::future` pair created at submission). -/
inductive Outcome (ε α : Type)
  | value (a : α)
  | failure (e : ε)
deriving DecidableEq

/-- A submitted task as a worker executes it: the id of its result channel
plus the bound body, which either returns a value or raises a failure. -/
structure ChanTask (ε α : Type) where
  id : Nat
  body : Unit → Except ε α

/-- Invocation of the packaged task built at submission (lines 303-309):
`std::packaged_task::operator()` runs the stored callable and stores the
returned value — or the thrown exception — into the shared state instead of
letting it propagate (C++ [futures.task.members]).  `worker_loop` calls the
wrapping `Task` with no handler of its own (line 415), so in both cases
nothing escapes onto the worker thread. -/
def run_packaged (t : ChanTask ε α) : Outcome ε α :=
  match t.body () with
  | .ok a => .value a
  | .error e => .failure e

/-- Worker-local view while draining tasks: the resolved channels, and
whether the worker is still inside its loop. -/
structure WorkerRun (ε α : Type) where
  channels : List (Nat × Outcome ε α)
  alive : Bool

/-- Execution of one obtained task by `worker_loop` (lines 411-421): the
channel is resolved and control returns to the top of the loop — the loop
body has no exit path after an execution, so the worker stays alive
regardless of the outcome. -/
def worker_exec (st : WorkerRun ε α) (t : ChanTask ε α) : WorkerRun ε α :=
  { channels := st.channels ++ [(t.id, run_packaged t)], alive := st.alive }

/-- A worker executing, in order, the sequence of tasks it obtains. -/
def worker_exec_all (ts : List (ChanTask ε α)) : WorkerRun ε α :=
  ts.foldl worker_exec ⟨[], true⟩

theorem worker_exec_all_eq (ε α : Type) (ts : List (ChanTask ε α)) :
    worker_exec_all ts
      = ⟨ts.map fun u => (u.id, run_packaged u), true⟩ := by
  have hgen : ∀ (l : List (ChanTask ε α)) (st : WorkerRun ε α),
      l.foldl worker_exec st
        = ⟨st.channels ++ l.map fun u => (u.id, run_packaged u), st.alive⟩ := by
    intro l
    induction l with
    | nil => intro st; simp
    | cons t l ih =>
      intro st
      rw [List.foldl_cons, ih]
      simp [worker_exec]
  unfold worker_exec_all
  rw [hgen]
  simp

/-- C6: when a task's body raises, the failure is captured into the task's
result channel (surfacing only on the consumer's `get()`), the worker
survives, and every task in the worker's sequence — including those after
the failing one — still gets its channel resolved exactly in order. -/
theorem C6_failure_captured (ε α : Type) (ts : List (ChanTask ε α))
    (t : ChanTask ε α) (e : ε) (ht : t ∈ ts) (he : t.body () = .error e) :
    (worker_exec_all ts).alive = true
    ∧ (t.id, Outcome.failure e) ∈ (worker_exec_all ts).channels
    ∧ (worker_exec_all ts).channels = ts.map fun u => (u.id, run_packaged u) := by
  rw [worker_exec_all_eq]
  refine ⟨rfl, ?_, rfl⟩
  have hrun : run_packaged t = Outcome.failure e := by
    unfold run_packaged
    rw [he]
  rw [← hrun]
  exact List.mem_map.mpr ⟨t, ht, rfl⟩

/-- Witness for C6: a worker runs a failing task (body raises `7`) followed
by a succeeding one; the failure is captured and the second task still
runs. -/
theorem C6_witness :
    (worker_exec_all [(⟨0, fun _ => Except.error 7⟩ : ChanTask Nat Nat),
        ⟨1, fun _ => Except.ok 3⟩]).alive = true
    ∧ ((0 : Nat), (Outcome.failure 7 : Outcome Nat Nat))
        ∈ (worker_exec_all [(⟨0, fun _ => Except.error 7⟩ : ChanTask Nat Nat),
            ⟨1, fun _ => Except.ok 3⟩]).channels
    ∧ (worker_exec_all [(⟨0, fun _ => Except.error 7⟩ : ChanTask Nat Nat),
          ⟨1, fun _ => Except.ok 3⟩]).channels
        = List.map (fun u => (u.id, run_packaged u))
            [(⟨0, fun _ => Except.error 7⟩ : ChanTask Nat Nat), ⟨1, fun _ => Except.ok 3⟩] :=
  C6_failure_captured Nat Nat
    [⟨0, fun _ => Except.error 7⟩, ⟨1, fun _ => Except.ok 3⟩]
    ⟨0, fun _ => Except.error 7⟩ 7 (List.mem_cons_self _ _) rfl

namespace WaitModel

/-- Program point of the single worker of a one-thread pool inside
`worker_loop`: `idle` = at the top of the loop (line 383); `popped` = after
`try_pop` has removed a task from the global queue (line 391) but before
`++active_tasks_` (line 412); `running` = the task is counted active and
its body / completion bookkeeping (lines 415-420) has not finished. -/
inductive Phase
  | idle
  | popped
  | running
deriving DecidableEq

/-- Interleaved state of one worker in `worker_loop` plus a caller polling
`ThreadPool::wait` (lines 345-349): `queue` is the number of tasks in the
global queue (the local deques stay empty, see the C8 theorem, so this is
`pending()`), `active` is `active_tasks_`, `completed` is
`stats_.total_tasks_completed`, and `wait_returned` records whether the
poll has observed `pending() == 0 && active() == 0` and returned. -/
structure St where
  queue : Nat
  active : Nat
  completed : Nat
  phase : Phase
  wait_returned : Bool
deriving DecidableEq

/-- Initial state: `T` tasks submitted up front, none executed, the worker
at the top of its loop, `wait()` not yet returned. -/
def init (T : Nat) : St :=
  ⟨T, 0, 0, .idle, false⟩

/-- Interleaving of the worker's individually-synchronized actions with the
`wait()` poll.  `pop` is the mutex-protected `try_pop` (line 391);
`inc_active` the atomic `++active_tasks_` (line 412); `finish` collapses
running the body, `++stats_.total_tasks_completed` and `--active_tasks_`
(lines 415-420); `wait_ret` is the `wait()` loop condition (line 346)
evaluating to false, letting `wait()` return. -/
inductive Step : St → St → Prop
  | pop (s : St) (h1 : s.phase = .idle) (h2 : s.queue ≠ 0) :
      Step s { s with queue := s.queue - 1, phase := .popped }
  | inc_active (s : St) (h : s.phase = .popped) :
      Step s { s with active := s.active + 1, phase := .running }
  | finish (s : St) (h : s.phase = .running) :
      Step s { s with completed := s.completed + 1, active := s.active - 1, phase := .idle }
  | wait_ret (s : St) (h1 : s.queue = 0) (h2 : s.active = 0)
      (h3 : s.wait_returned = false) :
      Step s { s with wait_returned := true }

end WaitModel

/-- C7 counterexample: in a pool of size 1 with T = 1 submitted task,
`wait()` can return in the window between the worker's dequeue of the task
and its `++active_tasks_` — the state `⟨0, 0, 0, popped, true⟩` is
reachable, and there `wait()` has returned while
`stats_.total_tasks_completed = 0 ≠ 1 = T` (the task has not even started
executing), refuting the claim as stated. -/
theorem C7_counterexample :
    Relation.ReflTransGen WaitModel.Step (WaitModel.init 1)
      ⟨0, 0, 0, .popped, true⟩
    ∧ (⟨0, 0, 0, .popped, true⟩ : WaitModel.St).wait_returned = true
    ∧ ¬ ((⟨0, 0, 0, .popped, true⟩ : WaitModel.St).completed = 1) := by
  refine ⟨?_, rfl, by decide⟩
  have s1 : WaitModel.Step (WaitModel.init 1) ⟨0, 0, 0, .popped, false⟩ :=
    WaitModel.Step.pop (WaitModel.init 1) rfl (by decide)
  have s2 : WaitModel.Step (⟨0, 0, 0, .popped, false⟩ : WaitModel.St)
      ⟨0, 0, 0, .popped, true⟩ :=
    WaitModel.Step.wait_ret (⟨0, 0, 0, .popped, false⟩ : WaitModel.St) rfl rfl rfl
  exact Relation.ReflTransGen.tail (Relation.ReflTransGen.single s1) s2

/-- Conservation invariant of the wait model: queued + in-flight + completed
tasks always account for all `T` submitted tasks; `active_tasks_` is 1
exactly while the task is counted active; once `wait()` has returned the
queue is empty (nothing refills it). -/
def WaitInv (T : Nat) (s : WaitModel.St) : Prop :=
  s.queue + (if s.phase = .idle then 0 else 1) + s.completed = T
  ∧ s.active = (if s.phase = .running then 1 else 0)
  ∧ (s.wait_returned = true → s.queue = 0)

theorem waitInv_init (T : Nat) : WaitInv T (WaitModel.init T) := by
  refine ⟨by simp [WaitModel.init], by simp [WaitModel.init], ?_⟩
  intro h
  exact absurd h (by simp [WaitModel.init])

theorem waitInv_step (T : Nat) (a b : WaitModel.St) (hstep : WaitModel.Step a b)
    (ha : WaitInv T a) : WaitInv T b := by
  obtain ⟨h1, h2, h3⟩ := ha
  cases hstep with
  | pop h1p h2p =>
    rw [h1p] at h1 h2
    simp at h1 h2
    refine ⟨by simp; omega, by simp [h2], fun hw => absurd (h3 hw) h2p⟩
  | inc_active hp =>
    rw [hp] at h1 h2
    simp at h1 h2
    refine ⟨by simp; omega, by simp [h2], fun hw => h3 hw⟩
  | finish hp =>
    rw [hp] at h1 h2
    simp at h1 h2
    refine ⟨by simp; omega, by simp [h2], fun hw => h3 hw⟩
  | wait_ret h1w h2w h3w =>
    exact ⟨h1, h2, fun _ => h1w⟩

theorem waitInv_reachable (T : Nat) (s : WaitModel.St)
    (h : Relation.ReflTransGen WaitModel.Step (WaitModel.init T) s) :
    WaitInv T s := by
  induction h with
  | refl => exact waitInv_init T
  | tail hab hbc ih => exact waitInv_step T _ _ hbc ih

/-- C7 amended: once `wait()` has returned, its final poll observed
`pending() == 0` and `active() == 0`; if moreover the worker is not inside
the window between dequeuing a task and finishing it (i.e. it is at the top
of its loop), then `stats_.total_tasks_completed = T`, the queue is empty
and nothing is active — every submitted task has finished and been counted
exactly once.  (The counterexample above shows the extra condition is
necessary: `wait()` may return while a dequeued task is not yet counted.) -/
theorem C7_amended_quiescence (T : Nat) (s : WaitModel.St)
    (h : Relation.ReflTransGen WaitModel.Step (WaitModel.init T) s)
    (hw : s.wait_returned = true) (hph : s.phase = WaitModel.Phase.idle) :
    s.completed = T ∧ s.active = 0 ∧ s.queue = 0 := by
  obtain ⟨h1, h2, h3⟩ := waitInv_reachable T s h
  have hq : s.queue = 0 := h3 hw
  rw [hph] at h1 h2
  simp at h1 h2
  refine ⟨by omega, by omega, hq⟩

/-- Witness for C7 (amended): the full run pop, `++active`, finish, then
`wait()` returns; in the final state all 1 task is completed. -/
theorem C7_amended_witness :
    (⟨0, 0, 1, .idle, true⟩ : WaitModel.St).completed = 1
    ∧ (⟨0, 0, 1, .idle, true⟩ : WaitModel.St).active = 0
    ∧ (⟨0, 0, 1, .idle, true⟩ : WaitModel.St).queue = 0 := by
  have t1 : WaitModel.Step (WaitModel.init 1) ⟨0, 0, 0, .popped, false⟩ :=
    WaitModel.Step.pop (WaitModel.init 1) rfl (by decide)
  have t2 : WaitModel.Step (⟨0, 0, 0, .popped, false⟩ : WaitModel.St)
      ⟨0, 1, 0, .running, false⟩ :=
    WaitModel.Step.inc_active _ rfl
  have t3 : WaitModel.Step (⟨0, 1, 0, .running, false⟩ : WaitModel.St)
      ⟨0, 0, 1, .idle, false⟩ :=
    WaitModel.Step.finish _ rfl
  have t4 : WaitModel.Step (⟨0, 0, 1, .idle, false⟩ : WaitModel.St)
      ⟨0, 0, 1, .idle, true⟩ :=
    WaitModel.Step.wait_ret _ rfl rfl rfl
  exact C7_amended_quiescence 1 ⟨0, 0, 1, .idle, true⟩
    (Relation.ReflTransGen.tail
      (Relation.ReflTransGen.tail
        (Relation.ReflTransGen.tail (Relation.ReflTransGen.single t1) t2) t3) t4)
    rfl rfl

namespace StatsRace

/-- Shared-memory state of `++stats_.total_tasks_completed` (line 419)
executed by two workers A and B that each just finished one task.  The
`PoolStats` fields are plain `size_t` (lines 215-220), not atomics, so each
increment is a read of the shared counter followed by a write of the read
value plus one.  `a`/`b` hold the value each worker has read (`none` = not
yet read); `a_done`/`b_done` record whether its write has been issued. -/
structure St where
  ctr : Nat
  a : Option Nat
  b : Option Nat
  a_done : Bool
  b_done : Bool
deriving DecidableEq

/-- Both workers about to increment a counter currently 0. -/
def init : St :=
  ⟨0, none, none, false, false⟩

/-- Interleaving semantics of the two plain (non-atomic) increments. -/
inductive Step : St → St → Prop
  | a_read (s : St) (h : s.a = none) : Step s { s with a := some s.ctr }
  | a_write (s : St) (v : Nat) (h1 : s.a = some v) (h2 : s.a_done = false) :
      Step s { s with ctr := v + 1, a_done := true }
  | b_read (s : St) (h : s.b = none) : Step s { s with b := some s.ctr }
  | b_write (s : St) (v : Nat) (h1 : s.b = some v) (h2 : s.b_done = false) :
      Step s { s with ctr := v + 1, b_done := true }

end StatsRace

/-- C9 (lost update): because the statistics counters are plain `size_t`
fields incremented with non-atomic `++`/`+=`, two workers can interleave
read / read / write / write, and after both increments have completed the
completed-tasks counter holds 1, not 2 — a concurrent update is lost,
contradicting the claimed atomic, loss-free increments (the code does use
`std::atomic` for `stop_` and `active_tasks_`, lines 443-444, but not for
`stats_`, line 450). -/
theorem C9_lost_update :
    Relation.ReflTransGen StatsRace.Step StatsRace.init
      ⟨1, some 0, some 0, true, true⟩
    ∧ (⟨1, some 0, some 0, true, true⟩ : StatsRace.St).a_done = true
    ∧ (⟨1, some 0, some 0, true, true⟩ : StatsRace.St).b_done = true
    ∧ ¬ ((⟨1, some 0, some 0, true, true⟩ : StatsRace.St).ctr = 2) := by
  refine ⟨?_, rfl, rfl, by decide⟩
  have r1 : StatsRace.Step StatsRace.init ⟨0, some 0, none, false, false⟩ :=
    StatsRace.Step.a_read StatsRace.init rfl
  have r2 : StatsRace.Step (⟨0, some 0, none, false, false⟩ : StatsRace.St)
      ⟨0, some 0, some 0, false, false⟩ :=
    StatsRace.Step.b_read _ rfl
  have r3 : StatsRace.Step (⟨0, some 0, some 0, false, false⟩ : StatsRace.St)
      ⟨1, some 0, some 0, true, false⟩ :=
    StatsRace.Step.a_write _ 0 rfl rfl
  have r4 : StatsRace.Step (⟨1, some 0, some 0, true, false⟩ : StatsRace.St)
      ⟨1, some 0, some 0, true, true⟩ :=
    StatsRace.Step.b_write _ 0 rfl rfl
  exact Relation.ReflTransGen.tail
    (Relation.ReflTransGen.tail
      (Relation.ReflTransGen.tail (Relation.ReflTransGen.single r1) r2) r3) r4

end tp
